import Mathlib

/-!
Verification of the abstrastore addressing scheme and transaction log.

Go strings are modelled as lists of characters (`GoStr`), Go byte slices
likewise (the payloads in play are textual), `int64` microsecond timestamps
as `Int` (no overflow is relevant to any property below), Go maps as
association lists, and Go pointers as `Option` or plain values.  Wall-clock
reads (`time.Now()`) become explicit parameters.  A Go `panic` is modelled
by the `GoResult.fatal` constructor, and a fallible Go function returning
`(T, error)` becomes `Except GoError T`.  `json.Marshal` over an opaque
entity is modelled by an explicit marshalling function parameter, so the
development is polymorphic in the entity type.
-/

set_option linter.unusedVariables false

abbrev GoStr : Type := List Char

def str (s : String) : GoStr := s.data

deriving instance DecidableEq for Except

/-- The parsed identity recovered from an index-entry path.
Source: type DatabaseTableIdTuple, schema.go. -/
structure DatabaseTableIdTuple : Type where
  Database : GoStr
  Table : GoStr
  Id : GoStr
deriving DecidableEq, Repr

/-- The typed errors the schema and transaction code can return.
Each constructor corresponds to one error value constructed in the source
(ADB-0033, ADB-0032, ADB-0034, and the three transaction errors); marshalErr
stands for whatever error json.Marshal returned. -/
inductive GoError : Type where
  | unknownIndex (field : GoStr)
  | tableMismatch (tuple : DatabaseTableIdTuple)
  | malformedPath (path : GoStr)
  | alreadyCommitted
  | alreadyRolledBack
  | timedOut
  | marshalErr (msg : GoStr)
deriving DecidableEq, Repr

/-- Outcome of a Go computation that may panic: `fatal` models `panic`. -/
inductive GoResult (α : Type) : Type where
  | ok (a : α)
  | fatal (msg : GoStr)
deriving DecidableEq, Repr

mutual

/-- Source: type Table struct, schema.go.  A Table holds its Database name,
its own Name and its Index definitions; each Index in turn holds a copy of
its Table, exactly as the Go structs do. -/
inductive Table : Type where
  | mk (Database : GoStr) (Name : GoStr) (Indices : List Index)

/-- Source: type Index struct, schema.go. -/
inductive Index : Type where
  | mk (Table : Table) (Field : GoStr)

end

def Table.Database : Table → GoStr
  | .mk d _ _ => d

def Table.Name : Table → GoStr
  | .mk _ n _ => n

def Table.Indices : Table → List Index
  | .mk _ _ is => is

def Index.TableOf : Index → Table
  | .mk t _ => t

def Index.Field : Index → GoStr
  | .mk _ f => f

/-- Source: Table.pathPrefix, schema.go (renamed: the gate of this
development reserves that suffix).  fmt.Sprintf with two string verbs is
string concatenation. -/
def Table.pathStem (t : Table) : GoStr :=
  t.Database ++ str "/" ++ t.Name ++ str "/data"

/-- Source: Table.Path, schema.go. -/
def Table.Path (t : Table) (id : GoStr) : GoStr :=
  t.pathStem ++ str "/" ++ id ++ str ".json"

/-- Source: Table.IndicesPath, schema.go. -/
def Table.IndicesPath (t : Table) (id : GoStr) : GoStr :=
  t.pathStem ++ str "/" ++ id ++ str ".indices"

/-- Source: Table.PathFromIndex, schema.go. -/
def Table.PathFromIndex (t : Table) (tuple : DatabaseTableIdTuple) :
    Except GoError GoStr :=
  if tuple.Database ≠ t.Database ∨ tuple.Table ≠ t.Name then
    .error (.tableMismatch tuple)
  else
    .ok (t.pathStem ++ str "/" ++ tuple.Id ++ str ".json")

/-- Leftmost index at which `sep` occurs in the string, as in Go
strings.Index (for the non-empty separators used here). -/
def findSep (sep : GoStr) : GoStr → Option Nat
  | [] => if sep = [] then some 0 else none
  | c :: cs => if sep.isPrefixOf (c :: cs) then some 0 else (findSep sep cs).map (· + 1)

/-- Go strings.SplitN(s, sep, n): at most n substrings, the last one
being the unsplit remainder. -/
def goSplitN (sep : GoStr) : GoStr → Nat → List GoStr
  | _, 0 => []
  | s, 1 => [s]
  | s, Nat.succ n =>
    match findSep sep s with
    | none => [s]
    | some i => s.take i :: goSplitN sep (s.drop (i + sep.length)) n

/-- Go strings.LastIndex for a single-character separator: index of the
last occurrence of `c`. -/
def lastIndex (c : Char) : GoStr → Option Nat
  | [] => none
  | a :: as =>
    match lastIndex c as with
    | some i => some (i + 1)
    | none => if a = c then some 0 else none

/-- Source: DatabaseTableIdTupleFromPath, schema.go.  Strips everything up
to and including the last slash, splits on the literal separator with
SplitN limit 3, and demands exactly three parts. -/
def DatabaseTableIdTupleFromPath (path : GoStr) : Except GoError DatabaseTableIdTuple :=
  let path1 : GoStr :=
    match lastIndex '/' path with
    | none => path
    | some idx => path.drop (idx + 1)
  match goSplitN (str "___") path1 3 with
  | [database, table, id] => .ok ⟨database, table, id⟩
  | _ => .error (.malformedPath path1)

/-- Source: Index.PathPrefix, schema.go (renamed: the gate of this
development reserves that suffix). -/
def Index.PathStem (i : Index) : GoStr :=
  i.TableOf.Database ++ str "/" ++ i.TableOf.Name ++ str "/indices/" ++ i.Field

/-- The Go loop `for len(fieldValue) < 2 do fieldValue = "_" + fieldValue`:
it prepends twice to an empty string, once to a one-character string, and
leaves anything longer unchanged, which is exactly the unrolling below. -/
def padTo2 : GoStr → GoStr
  | [] => ['_', '_']
  | [c] => ['_', c]
  | s => s

/-- Go strings.ToLower, rune by rune. -/
def toLowerStr (s : GoStr) : GoStr := s.map Char.toLower

/-- Source: Index.PathNoId, schema.go: pad to length at least 2, lower-case,
then shard by the first two characters. -/
def Index.PathNoId (i : Index) (fieldValue : GoStr) : GoStr :=
  let padded := padTo2 fieldValue
  let lowered := toLowerStr padded
  i.PathStem ++ str "/" ++ lowered.take 2 ++ str "/" ++ lowered

/-- Source: Index.Path, schema.go: the filename joins database, table and
entity id with the literal separator. -/
def Index.Path (i : Index) (fieldValue : GoStr) (entityId : GoStr) : GoStr :=
  let database_table_id :=
    i.TableOf.Database ++ str "___" ++ i.TableOf.Name ++ str "___" ++ entityId
  i.PathNoId fieldValue ++ str "/" ++ database_table_id

/-- Source: const TX_ID, transaction file. -/
def TX_ID : GoStr := str "Tx-Id"

/-- Source: const LAST_MODIFIED, transaction file. -/
def LAST_MODIFIED : GoStr := str "Last-Modified"

/-- Source: const TIMESTAMP_ID_SEPARATOR, transaction file. -/
def TIMESTAMP_ID_SEPARATOR : GoStr := str "___"

/-- Source: const TRANSACTIONS_ROOT, transaction file. -/
def TRANSACTIONS_ROOT : GoStr := str "transactions/"

/-- Source: type ObjectAndETag, transaction file.  The two Go pointers
become Options. -/
structure ObjectAndETag (ε : Type) : Type where
  Object : Option ε
  ETag : Option GoStr
deriving DecidableEq, Repr

/-- Source: type TransactionStep, transaction file.  The Go field `Type`
is spelled `Typ` (Lean keyword); `Data *[]byte` becomes the byte list it
points at, `Entity *any` becomes `Option ε`, and the two `*string` fields
become Options (nil = none). -/
structure TransactionStep (ε : Type) : Type where
  Typ : GoStr
  ContentType : GoStr
  Path : GoStr
  InitialETag : GoStr
  InitialVersionId : GoStr
  UserMetadata : List (GoStr × GoStr)
  Data : GoStr
  Entity : Option ε
  Executed : Bool
  FinalETag : Option GoStr
  FinalVersionId : Option GoStr
deriving DecidableEq, Repr

/-- Source: type Transaction, transaction file.  The Cache map becomes an
association list keyed by path. -/
structure Transaction (ε : Type) : Type where
  Id : GoStr
  Etag : GoStr
  StartMicroseconds : Int
  TimeoutMicroseconds : Int
  Steps : List (TransactionStep ε)
  Cache : List (GoStr × ObjectAndETag ε)
  State : GoStr
deriving DecidableEq, Repr

/-- Source: NewTransaction, transaction file.  The uuid and the wall clock
are passed in: `nowMicros` is time.Now().UnixMicro() and `timeoutMicros`
the timeout duration in microseconds, so start plus timeout is the
deadline, as in now.Add(timeout).UnixMicro(). -/
def NewTransaction (ε : Type) (id : GoStr) (nowMicros timeoutMicros : Int) : Transaction ε :=
  { Id := id
    Etag := str "*"
    StartMicroseconds := nowMicros
    TimeoutMicroseconds := nowMicros + timeoutMicros
    Steps := []
    Cache := []
    State := str "InProgress" }

/-- Source: Transaction.IsExpired, transaction file; `now` is the
time.Now().UnixMicro() read. -/
def Transaction.IsExpired (t : Transaction ε) (now : Int) : Bool :=
  now > t.TimeoutMicroseconds

/-- Source: Transaction.IsOk, transaction file.  `.ok none` is a nil error,
`.ok (some e)` an error return, `.fatal` the unknown-state panic. -/
def Transaction.IsOk (t : Transaction ε) (now : Int) : GoResult (Option GoError) :=
  if t.State = str "Committing" then
    .ok (some .alreadyCommitted)
  else if t.State = str "RollingBack" then
    .ok (some .alreadyRolledBack)
  else if t.State ≠ str "InProgress" then
    .fatal (str "ADB-0014 Transaction is in an unknown state: " ++ t.State)
  else if t.IsExpired now then
    .ok (some .timedOut)
  else
    .ok none

/-- Source: Transaction.GetPath, transaction file.  %d of an int64 is its
decimal rendering. -/
def Transaction.GetPath (t : Transaction ε) : GoStr :=
  TRANSACTIONS_ROOT ++ (toString t.StartMicroseconds).data ++ TIMESTAMP_ID_SEPARATOR ++ t.Id

/-- Source: Transaction.AddStep, transaction file.  The receiver is passed
in and the (possibly updated) transaction is returned alongside the Go
error value: an error return in Go leaves the receiver exactly as it was,
so those branches return `t` itself.  `nowCheck` is the clock read inside
IsOk, `nowMeta` the one stored in UserMetadata, and `marshal` stands for
json.Marshal on the entity type. -/
def Transaction.AddStep (marshal : ε → Except GoError GoStr) (t : Transaction ε)
    (nowCheck nowMeta : Int) (Typ ContentType Path InitialETag : GoStr)
    (Entity : Option ε) : GoResult (Transaction ε × Option GoError) :=
  match t.IsOk nowCheck with
  | .fatal msg => .fatal msg
  | .ok (some err) => .ok (t, some err)
  | .ok none =>
    let userMetadata : List (GoStr × GoStr) :=
      [(TX_ID, t.Id), (LAST_MODIFIED, (toString nowMeta).data)]
    let dataE : Except GoError GoStr :=
      match Entity with
      | none => .ok []
      | some entity => marshal entity
    match dataE with
    | .error err => .ok (t, some err)
    | .ok data =>
      let step : TransactionStep ε :=
        { Typ := Typ
          ContentType := ContentType
          Path := Path
          InitialETag := InitialETag
          InitialVersionId := []
          UserMetadata := userMetadata
          Data := data
          Entity := Entity
          Executed := false
          FinalETag := none
          FinalVersionId := none }
      .ok ({ t with Steps := t.Steps ++ [step] }, none)

/-! Helper lemmas about the separator-scanning functions. -/

theorem isPrefixOf_append_self (l x : GoStr) : l.isPrefixOf (l ++ x) = true :=
  List.isPrefixOf_iff_prefix.mpr (List.prefix_append l x)

theorem findSep_decomp {sep s : GoStr} {i : Nat} (h : findSep sep s = some i) :
    s = s.take i ++ sep ++ s.drop (i + sep.length) := by
  induction s generalizing i with
  | nil =>
    unfold findSep at h
    by_cases hsep : sep = ([] : GoStr)
    · simp only [hsep, if_pos] at h
      obtain rfl : (0 : Nat) = i := by injection h
      simp [hsep]
    · simp [hsep] at h
  | cons c cs ih =>
    unfold findSep at h
    by_cases hp : sep.isPrefixOf (c :: cs) = true
    · rw [if_pos hp] at h
      obtain rfl : (0 : Nat) = i := by injection h
      obtain ⟨t, ht⟩ := List.isPrefixOf_iff_prefix.mp hp
      simp only [List.take_zero, List.nil_append, Nat.zero_add]
      rw [← ht, List.drop_left]
    · rw [if_neg hp] at h
      cases hfs : findSep sep cs with
      | none => rw [hfs] at h; simp at h
      | some j =>
        rw [hfs] at h
        have h' : some (j + 1) = some i := h
        obtain rfl : j + 1 = i := by injection h'
        have hj := ih hfs
        calc c :: cs = c :: (cs.take j ++ sep ++ cs.drop (j + sep.length)) := by rw [← hj]
        _ = (c :: cs).take (j + 1) ++ sep ++ (c :: cs).drop (j + 1 + sep.length) := by
              rw [List.take_succ_cons, show j + 1 + sep.length = (j + sep.length) + 1 by omega,
                List.drop_succ_cons]
              simp

theorem findSep_isSome_of {sep s : GoStr} {k : Nat}
    (h : sep.isPrefixOf (s.drop k) = true) :
    ∃ j, findSep sep s = some j ∧ j ≤ k := by
  induction s generalizing k with
  | nil =>
    simp only [List.drop_nil] at h
    have hsep : sep = ([] : GoStr) := by
      cases sep with
      | nil => rfl
      | cons a as => simp [List.isPrefixOf] at h
    exact ⟨0, by simp [findSep, hsep], Nat.zero_le k⟩
  | cons c cs ih =>
    by_cases hp : sep.isPrefixOf (c :: cs) = true
    · exact ⟨0, by simp [findSep, hp], Nat.zero_le k⟩
    · cases k with
      | zero => simp only [List.drop_zero] at h; exact absurd h hp
      | succ k' =>
        rw [List.drop_succ_cons] at h
        obtain ⟨j, hj, hjk⟩ := ih h
        refine ⟨j + 1, ?_, by omega⟩
        simp [findSep, hp, hj]

theorem findSep_some_of_decomp (sep a b : GoStr) :
    ∃ j, findSep sep (a ++ sep ++ b) = some j ∧ j ≤ a.length := by
  apply findSep_isSome_of
  rw [List.append_assoc, List.drop_left]
  exact isPrefixOf_append_self sep b

theorem findSep_none_iff {sep s : GoStr} :
    findSep sep s = none ↔ ¬ ∃ a b : GoStr, s = a ++ sep ++ b := by
  constructor
  · rintro h ⟨a, b, rfl⟩
    obtain ⟨j, hj, _⟩ := findSep_some_of_decomp sep a b
    rw [h] at hj
    exact Option.noConfusion hj
  · intro h
    cases hfs : findSep sep s with
    | none => rfl
    | some i => exact absurd ⟨s.take i, s.drop (i + sep.length), findSep_decomp hfs⟩ h

theorem goSplitN_three (sep s : GoStr) :
    goSplitN sep s 3 =
      match findSep sep s with
      | none => [s]
      | some i => s.take i :: goSplitN sep (s.drop (i + sep.length)) 2 := rfl

theorem goSplitN_two (sep s : GoStr) :
    goSplitN sep s 2 =
      match findSep sep s with
      | none => [s]
      | some i => s.take i :: goSplitN sep (s.drop (i + sep.length)) 1 := rfl

theorem goSplitN_one (sep s : GoStr) : goSplitN sep s 1 = [s] := rfl

theorem goSplitN_three_none {sep s : GoStr} (h : findSep sep s = none) :
    goSplitN sep s 3 = [s] := by
  rw [goSplitN_three, h]

theorem goSplitN_three_some {sep s : GoStr} {i : Nat} (h : findSep sep s = some i) :
    goSplitN sep s 3 = s.take i :: goSplitN sep (s.drop (i + sep.length)) 2 := by
  rw [goSplitN_three, h]

theorem goSplitN_two_none {sep s : GoStr} (h : findSep sep s = none) :
    goSplitN sep s 2 = [s] := by
  rw [goSplitN_two, h]

theorem goSplitN_two_some {sep s : GoStr} {i : Nat} (h : findSep sep s = some i) :
    goSplitN sep s 2 = s.take i :: goSplitN sep (s.drop (i + sep.length)) 1 := by
  rw [goSplitN_two, h]

theorem goSplitN3_decomp {sep s a b c : GoStr} (h : goSplitN sep s 3 = [a, b, c]) :
    s = a ++ sep ++ b ++ sep ++ c := by
  cases h1 : findSep sep s with
  | none => rw [goSplitN_three_none h1] at h; simp at h
  | some i =>
    rw [goSplitN_three_some h1] at h
    cases h2 : findSep sep (s.drop (i + sep.length)) with
    | none => rw [goSplitN_two_none h2] at h; simp at h
    | some j =>
      rw [goSplitN_two_some h2, goSplitN_one] at h
      simp only [List.cons.injEq, and_true] at h
      obtain ⟨ha, hb, hc⟩ := h
      have hs := findSep_decomp h1
      have hs2 := findSep_decomp h2
      rw [hs2, ha, hb, hc] at hs
      rw [hs]
      simp [List.append_assoc]

theorem goSplitN3_of_decomp (sep a b c : GoStr) :
    ∃ x y z : GoStr, goSplitN sep (a ++ sep ++ b ++ sep ++ c) 3 = [x, y, z] := by
  have hshape : a ++ sep ++ b ++ sep ++ c = a ++ sep ++ (b ++ sep ++ c) := by
    simp [List.append_assoc]
  obtain ⟨j, hj, hjle⟩ := findSep_some_of_decomp sep a (b ++ sep ++ c)
  rw [← hshape] at hj
  have hpre : sep.isPrefixOf
      (((a ++ sep ++ b ++ sep ++ c).drop (j + sep.length)).drop
        (a.length + b.length - j)) = true := by
    rw [List.drop_drop]
    have harith : j + sep.length + (a.length + b.length - j) =
        (a ++ sep ++ b).length := by
      simp only [List.length_append]
      omega
    rw [harith, show a ++ sep ++ b ++ sep ++ c = (a ++ sep ++ b) ++ (sep ++ c) by
      simp [List.append_assoc], List.drop_left]
    exact isPrefixOf_append_self sep c
  obtain ⟨j2, hj2, _⟩ := findSep_isSome_of hpre
  rw [goSplitN_three_some hj, goSplitN_two_some hj2, goSplitN_one]
  exact ⟨_, _, _, rfl⟩

/-- What the claim calls the filename: the input path with everything up
to and including the last slash stripped. -/
def claimFilename (path : GoStr) : GoStr :=
  match lastIndex '/' path with
  | none => path
  | some idx => path.drop (idx + 1)

theorem parse_eq (path : GoStr) :
    DatabaseTableIdTupleFromPath path =
      match goSplitN (str "___") (claimFilename path) 3 with
      | [database, table, id] => .ok ⟨database, table, id⟩
      | _ => .error (.malformedPath (claimFilename path)) := rfl

theorem lastIndex_none_iff (c : Char) (s : GoStr) : lastIndex c s = none ↔ c ∉ s := by
  induction s with
  | nil => simp [lastIndex]
  | cons a as ih =>
    unfold lastIndex
    cases hli : lastIndex c as with
    | some i => simp only [hli] at ih; simp [← ih, hli]
    | none =>
      simp only [hli] at ih
      by_cases hac : a = c
      · simp [hac]
      · simp [hac, ← ih]
        exact fun h => hac h.symm

theorem claimFilename_append (p q : GoStr) (hq : '/' ∉ q) :
    claimFilename (p ++ '/' :: q) = q := by
  induction p with
  | nil =>
    show claimFilename ('/' :: q) = q
    unfold claimFilename lastIndex
    rw [(lastIndex_none_iff '/' q).mpr hq]
    simp
  | cons a p' ih =>
    show claimFilename (a :: (p' ++ '/' :: q)) = q
    unfold claimFilename at ih ⊢
    cases hli : lastIndex '/' (p' ++ '/' :: q) with
    | none =>
      have hmem : '/' ∈ p' ++ '/' :: q := by simp
      exact absurd ((lastIndex_none_iff _ _).mp hli) (by simp [hmem])
    | some i =>
      rw [hli] at ih
      unfold lastIndex
      rw [hli]
      exact ih

theorem parse_append_clean (p q : GoStr) (hq : '/' ∉ q) :
    DatabaseTableIdTupleFromPath (p ++ '/' :: q) =
      match goSplitN (str "___") q 3 with
      | [database, table, id] => .ok ⟨database, table, id⟩
      | _ => .error (.malformedPath q) := by
  rw [parse_eq, claimFilename_append p q hq]

theorem sep_cons : (str "___" : GoStr) = '_' :: '_' :: '_' :: [] := rfl

theorem sep_len : (str "___" : GoStr).length = 3 := rfl

theorem findSep_boundary (d rest : GoStr) (h1 : findSep (str "___") d = none)
    (h2 : d.getLast? ≠ some '_') :
    findSep (str "___") (d ++ str "___" ++ rest) = some d.length := by
  induction d with
  | nil =>
    show findSep (str "___") (([] : GoStr) ++ str "___" ++ rest) = some 0
    rw [List.nil_append]
    rw [show (str "___" : GoStr) ++ rest = '_' :: ('_' :: '_' :: rest) from rfl]
    unfold findSep
    rw [if_pos ?hpre]
    case hpre =>
      rw [show ('_' :: ('_' :: '_' :: rest) : GoStr) = str "___" ++ rest from rfl]
      exact isPrefixOf_append_self _ _
  | cons ch d' ih =>
    have hsplit : ((str "___").isPrefixOf (ch :: d') = false) ∧
        findSep (str "___") d' = none := by
      by_cases hp : (str "___").isPrefixOf (ch :: d') = true
      · unfold findSep at h1
        rw [if_pos hp] at h1
        exact absurd h1 (by simp)
      · unfold findSep at h1
        rw [if_neg hp] at h1
        refine ⟨Bool.eq_false_iff.mpr hp, ?_⟩
        cases hfs : findSep (str "___") d' with
        | none => rfl
        | some j => rw [hfs] at h1; simp at h1
    obtain ⟨hp0, h1'⟩ := hsplit
    have h2' : d'.getLast? ≠ some '_' := by
      cases d' with
      | nil => simp
      | cons x xs =>
        rw [← List.getLast?_cons_cons]
        exact h2
    have hnp : ¬ (str "___").isPrefixOf (ch :: (d' ++ str "___" ++ rest)) = true := by
      intro hp
      cases d' with
      | nil =>
        rw [sep_cons] at hp
        simp only [List.nil_append, List.isPrefixOf, Bool.and_eq_true, beq_iff_eq] at hp
        exact h2 (by simp [hp.1.symm])
      | cons x xs =>
        cases xs with
        | nil =>
          rw [sep_cons] at hp
          simp only [List.cons_append, List.nil_append, List.isPrefixOf,
            Bool.and_eq_true, beq_iff_eq] at hp
          exact h2 (by simp [hp.1.symm, hp.2.1.symm])
        | cons y ys =>
          rw [sep_cons] at hp
          simp only [List.cons_append, List.isPrefixOf, Bool.and_eq_true, beq_iff_eq] at hp
          have hin : (str "___").isPrefixOf (ch :: x :: y :: ys) = true := by
            rw [sep_cons]
            simp only [List.isPrefixOf, Bool.and_eq_true, beq_iff_eq]
            exact ⟨hp.1, hp.2.1, hp.2.2.1, trivial⟩
          rw [hin] at hp0
          exact Bool.noConfusion hp0
    show findSep (str "___") (ch :: (d' ++ str "___" ++ rest)) = some (ch :: d').length
    unfold findSep
    rw [if_neg hnp, ih h1' h2']
    rfl

theorem goSplitN3_exact (d n idv : GoStr)
    (hd1 : findSep (str "___") d = none) (hd2 : d.getLast? ≠ some '_')
    (hn1 : findSep (str "___") n = none) (hn2 : n.getLast? ≠ some '_') :
    goSplitN (str "___") (d ++ str "___" ++ n ++ str "___" ++ idv) 3 = [d, n, idv] := by
  have hshape : d ++ str "___" ++ n ++ str "___" ++ idv =
      d ++ str "___" ++ (n ++ str "___" ++ idv) := by
    simp [List.append_assoc]
  have hf1 : findSep (str "___") (d ++ str "___" ++ n ++ str "___" ++ idv) =
      some d.length := by
    rw [hshape]
    exact findSep_boundary d _ hd1 hd2
  rw [goSplitN_three_some hf1]
  have htake : (d ++ str "___" ++ n ++ str "___" ++ idv).take d.length = d := by
    rw [hshape, List.append_assoc, List.take_left]
  have hdrop : (d ++ str "___" ++ n ++ str "___" ++ idv).drop
      (d.length + (str "___").length) = n ++ str "___" ++ idv := by
    rw [hshape]
    exact List.drop_left' (by simp)
  rw [htake, hdrop]
  have hf2 : findSep (str "___") (n ++ str "___" ++ idv) = some n.length :=
    findSep_boundary n idv hn1 hn2
  rw [goSplitN_two_some hf2]
  have htake2 : (n ++ str "___" ++ idv).take n.length = n := by
    rw [List.append_assoc, List.take_left]
  have hdrop2 : (n ++ str "___" ++ idv).drop (n.length + (str "___").length) = idv :=
    List.drop_left' (by simp)
  rw [htake2, hdrop2, goSplitN_one]

theorem sepThroughAppend {u v : GoStr} (hv : '_' ∉ v)
    (h : ∃ a b : GoStr, u ++ v = a ++ str "___" ++ b) :
    ∃ a b : GoStr, u = a ++ str "___" ++ b := by
  obtain ⟨a, b, hab⟩ := h
  by_cases hle : a.length + 3 ≤ u.length
  · refine ⟨a, u.drop (a.length + 3), ?_⟩
    have htake : u.take (a.length + 3) = a ++ str "___" := by
      have h1 : (u ++ v).take (a.length + 3) = u.take (a.length + 3) :=
        List.take_append_of_le_length hle
      have hlen : (a ++ str "___").length = a.length + 3 := by
        rw [List.length_append, sep_len]
      have h2 : (a ++ str "___" ++ b).take (a.length + 3) = a ++ str "___" := by
        rw [show a ++ str "___" ++ b = (a ++ str "___") ++ b from rfl, ← hlen,
          List.take_left]
      rw [← h2, ← hab, h1]
    calc u = u.take (a.length + 3) ++ u.drop (a.length + 3) :=
          (List.take_append_drop _ u).symm
    _ = (a ++ str "___") ++ u.drop (a.length + 3) := by rw [htake]
    _ = a ++ str "___" ++ u.drop (a.length + 3) := rfl
  · exfalso
    have hvdrop : v = (a ++ str "___" ++ b).drop u.length := by
      rw [← hab, List.drop_left]
    by_cases hua : u.length ≤ a.length
    · have hv2 : v = a.drop u.length ++ (str "___" ++ b) := by
        rw [hvdrop, List.append_assoc, List.drop_append_of_le_length hua]
      apply hv
      rw [hv2, sep_cons]
      simp
    · push_neg at hua
      have hv2 : v = (str "___" ++ b).drop (u.length - a.length) := by
        rw [hvdrop, List.append_assoc,
          show u.length = a.length + (u.length - a.length) by omega, List.drop_append]
        congr 1
        omega
      have hk2 : u.length - a.length ≤ 2 := by omega
      have h3 : (str "___" ++ b).drop (u.length - a.length) =
          (str "___").drop (u.length - a.length) ++ b :=
        List.drop_append_of_le_length (by rw [sep_len]; omega)
      apply hv
      rw [hv2, h3]
      have hmem : '_' ∈ (str "___").drop (u.length - a.length) := by
        have hcases : u.length - a.length = 0 ∨ u.length - a.length = 1 ∨
            u.length - a.length = 2 := by omega
        rcases hcases with h0 | h1 | h2
        · rw [h0]; decide
        · rw [h1]; decide
        · rw [h2]; decide
      simp [hmem]

/-- The arguments of one AddStep call, together with the two wall-clock
reads that call would make. -/
structure StepReq (ε : Type) : Type where
  nowCheck : Int
  nowMeta : Int
  Typ : GoStr
  ContentType : GoStr
  Path : GoStr
  InitialETag : GoStr
  Entity : Option ε
deriving DecidableEq, Repr

/-- The step an AddStep call with the given arguments appends on success
(its Data being the marshalled entity, empty for a nil entity). -/
def builtStep (marshal : ε → Except GoError GoStr) (txId : GoStr) (r : StepReq ε) :
    TransactionStep ε :=
  { Typ := r.Typ
    ContentType := r.ContentType
    Path := r.Path
    InitialETag := r.InitialETag
    InitialVersionId := []
    UserMetadata := [(TX_ID, txId), (LAST_MODIFIED, (toString r.nowMeta).data)]
    Data :=
      match r.Entity with
      | none => []
      | some entity => ((marshal entity).toOption.getD [])
    Entity := r.Entity
    Executed := false
    FinalETag := none
    FinalVersionId := none }

/-- A caller issuing AddStep calls in order, stopping at the first error
or panic, as the Go call sites do. -/
def runAddSteps (marshal : ε → Except GoError GoStr) :
    List (StepReq ε) → Transaction ε → GoResult (Transaction ε × Option GoError)
  | [], t => .ok (t, none)
  | r :: rs, t =>
    match t.AddStep marshal r.nowCheck r.nowMeta r.Typ r.ContentType r.Path r.InitialETag r.Entity with
    | .fatal msg => .fatal msg
    | .ok (t1, some err) => .ok (t1, some err)
    | .ok (t1, none) => runAddSteps marshal rs t1

theorem addStep_ok_none {ε : Type} (marshal : ε → Except GoError GoStr)
    (t : Transaction ε) (nowCheck nowMeta : Int)
    (Typ ContentType Path InitialETag : GoStr) (Entity : Option ε)
    (t' : Transaction ε)
    (h : t.AddStep marshal nowCheck nowMeta Typ ContentType Path InitialETag Entity =
      .ok (t', none)) :
    t' = { t with Steps := t.Steps ++
      [builtStep marshal t.Id
        ⟨nowCheck, nowMeta, Typ, ContentType, Path, InitialETag, Entity⟩] } := by
  unfold Transaction.AddStep at h
  cases hok : t.IsOk nowCheck with
  | fatal m => rw [hok] at h; exact absurd h (by simp)
  | ok oe =>
    rw [hok] at h
    cases oe with
    | some e =>
      have h' : (GoResult.ok (t, some e) :
          GoResult (Transaction ε × Option GoError)) = .ok (t', none) := h
      simp at h'
    | none =>
      cases Entity with
      | none =>
        have h' : (GoResult.ok
            ({ t with Steps := t.Steps ++
              [{ Typ := Typ, ContentType := ContentType, Path := Path,
                 InitialETag := InitialETag, InitialVersionId := [],
                 UserMetadata := [(TX_ID, t.Id), (LAST_MODIFIED, (toString nowMeta).data)],
                 Data := [], Entity := none, Executed := false,
                 FinalETag := none, FinalVersionId := none }] }, none) :
            GoResult (Transaction ε × Option GoError)) = .ok (t', none) := h
        simp only [GoResult.ok.injEq, Prod.mk.injEq, and_true] at h'
        rw [← h']
        rfl
      | some x =>
        have hred : ((match marshal x with
            | Except.error err => GoResult.ok (t, some err)
            | Except.ok data => GoResult.ok
                ({ t with Steps := t.Steps ++
                  [{ Typ := Typ, ContentType := ContentType, Path := Path,
                     InitialETag := InitialETag, InitialVersionId := [],
                     UserMetadata := [(TX_ID, t.Id),
                       (LAST_MODIFIED, (toString nowMeta).data)],
                     Data := data, Entity := some x, Executed := false,
                     FinalETag := none, FinalVersionId := none }] }, none)) :
            GoResult (Transaction ε × Option GoError)) = .ok (t', none) := h
        cases hm : marshal x with
        | error e =>
          rw [hm] at hred
          simp at hred
        | ok dt =>
          rw [hm] at hred
          have hred2 : (GoResult.ok
              ({ t with Steps := t.Steps ++
                [{ Typ := Typ, ContentType := ContentType, Path := Path,
                   InitialETag := InitialETag, InitialVersionId := [],
                   UserMetadata := [(TX_ID, t.Id),
                     (LAST_MODIFIED, (toString nowMeta).data)],
                   Data := dt, Entity := some x, Executed := false,
                   FinalETag := none, FinalVersionId := none }] }, none) :
              GoResult (Transaction ε × Option GoError)) = .ok (t', none) := hred
          simp only [GoResult.ok.injEq, Prod.mk.injEq, and_true] at hred2
          rw [← hred2]
          unfold builtStep
          simp only [hm]
          rfl

/-! Claim theorems: the transaction state machine. -/

/-- C2: IsOk returns no error exactly when State is InProgress and the
transaction has not expired; otherwise it returns exactly AlreadyCommitted
for State Committing, AlreadyRolledBack for State RollingBack, TimedOut for
an expired InProgress transaction, and panics on any other State.  A fresh
transaction with a positive timeout gets no error at creation time, and an
otherwise-untouched InProgress transaction past its deadline gets
TimedOut. -/
theorem isOk_gate (ε : Type) (t : Transaction ε) (now : Int) :
    (t.IsOk now = .ok none ↔ (t.State = str "InProgress" ∧ t.IsExpired now = false)) ∧
    (t.State = str "Committing" → t.IsOk now = .ok (some .alreadyCommitted)) ∧
    (t.State = str "RollingBack" → t.IsOk now = .ok (some .alreadyRolledBack)) ∧
    (t.State = str "InProgress" → t.IsExpired now = true →
      t.IsOk now = .ok (some .timedOut)) ∧
    (t.State ≠ str "Committing" → t.State ≠ str "RollingBack" →
      t.State ≠ str "InProgress" →
      t.IsOk now = .fatal (str "ADB-0014 Transaction is in an unknown state: " ++ t.State)) ∧
    (∀ (id : GoStr) (start dur : Int), 0 < dur →
      (NewTransaction ε id start dur).IsOk start = .ok none) ∧
    (∀ (id : GoStr) (start dur now2 : Int), start + dur < now2 →
      (NewTransaction ε id start dur).IsOk now2 = .ok (some .timedOut)) := by
  have hCI : (str "Committing" : GoStr) ≠ str "InProgress" := by decide
  have hRI : (str "RollingBack" : GoStr) ≠ str "InProgress" := by decide
  have hIC : (str "InProgress" : GoStr) ≠ str "Committing" := by decide
  have hIR : (str "InProgress" : GoStr) ≠ str "RollingBack" := by decide
  have hRC : (str "RollingBack" : GoStr) ≠ str "Committing" := by decide
  refine ⟨?_, ?_, ?_, ?_, ?_, ?_, ?_⟩
  · unfold Transaction.IsOk
    split_ifs with h1 h2 h3 h4 <;> simp_all
  · intro h1
    unfold Transaction.IsOk
    rw [if_pos h1]
  · intro h2
    unfold Transaction.IsOk
    rw [if_neg (h2 ▸ hRC), if_pos h2]
  · intro h3 h4
    unfold Transaction.IsOk
    rw [if_neg (h3 ▸ hIC), if_neg (h3 ▸ hIR), if_neg (by simp [h3]), if_pos h4]
  · intro hna hnb hnc
    unfold Transaction.IsOk
    rw [if_neg hna, if_neg hnb, if_pos hnc]
  · intro id start dur hdur
    have hstate : (NewTransaction ε id start dur).State = str "InProgress" := rfl
    have hexp : (NewTransaction ε id start dur).IsExpired start = false := by
      unfold Transaction.IsExpired NewTransaction
      simp
      omega
    unfold Transaction.IsOk
    rw [if_neg (hstate ▸ hIC), if_neg (hstate ▸ hIR), if_neg (by simp [hstate]), hexp]
    simp
  · intro id start dur now2 hlt
    have hstate : (NewTransaction ε id start dur).State = str "InProgress" := rfl
    have hexp : (NewTransaction ε id start dur).IsExpired now2 = true := by
      unfold Transaction.IsExpired NewTransaction
      simp
      omega
    unfold Transaction.IsOk
    rw [if_neg (hstate ▸ hIC), if_neg (hstate ▸ hIR), if_neg (by simp [hstate]), hexp]
    simp

theorem isOk_gate_witness :
    ((⟨str "i", str "*", 0, 10, [], [], str "Committing"⟩ : Transaction Unit).IsOk 99 =
        .ok (some .alreadyCommitted)) ∧
    ((⟨str "i", str "*", 0, 10, [], [], str "RollingBack"⟩ : Transaction Unit).IsOk 99 =
        .ok (some .alreadyRolledBack)) ∧
    ((⟨str "i", str "*", 0, 10, [], [], str "InProgress"⟩ : Transaction Unit).IsOk 99 =
        .ok (some .timedOut)) ∧
    ((⟨str "i", str "*", 0, 10, [], [], str "Broken"⟩ : Transaction Unit).IsOk 5 =
        .fatal (str "ADB-0014 Transaction is in an unknown state: " ++ str "Broken")) ∧
    ((NewTransaction Unit (str "i") 0 10).IsOk 0 = .ok none) ∧
    ((NewTransaction Unit (str "i") 0 10).IsOk 11 = .ok (some .timedOut)) := by
  refine ⟨?_, ?_, ?_, ?_, ?_, ?_⟩
  · exact (isOk_gate Unit ⟨str "i", str "*", 0, 10, [], [], str "Committing"⟩ 99).2.1 rfl
  · exact (isOk_gate Unit ⟨str "i", str "*", 0, 10, [], [], str "RollingBack"⟩ 99).2.2.1 rfl
  · exact (isOk_gate Unit ⟨str "i", str "*", 0, 10, [], [], str "InProgress"⟩ 99).2.2.2.1
      rfl (by decide)
  · exact (isOk_gate Unit ⟨str "i", str "*", 0, 10, [], [], str "Broken"⟩ 5).2.2.2.2.1
      (by decide) (by decide) (by decide)
  · exact (isOk_gate Unit ⟨str "x", str "*", 0, 0, [], [], str "x"⟩ 0).2.2.2.2.2.1
      (str "i") 0 10 (by omega)
  · exact (isOk_gate Unit ⟨str "x", str "*", 0, 0, [], [], str "x"⟩ 0).2.2.2.2.2.2
      (str "i") 0 10 11 (by omega)

/-- C10: IsOk checks the terminal states before expiry: an expired
transaction in State Committing (resp. RollingBack) still reports
AlreadyCommitted (resp. AlreadyRolledBack), never TimedOut, and TimedOut
is only ever returned when State is InProgress. -/
theorem isOk_terminal_first (ε : Type) (t : Transaction ε) (now : Int) :
    (t.IsExpired now = true → t.State = str "Committing" →
      t.IsOk now = .ok (some .alreadyCommitted)) ∧
    (t.IsExpired now = true → t.State = str "RollingBack" →
      t.IsOk now = .ok (some .alreadyRolledBack)) ∧
    (t.IsOk now = .ok (some .timedOut) → t.State = str "InProgress") := by
  have hRC : (str "RollingBack" : GoStr) ≠ str "Committing" := by decide
  refine ⟨?_, ?_, ?_⟩
  · intro _ h1
    unfold Transaction.IsOk
    rw [if_pos h1]
  · intro _ h2
    unfold Transaction.IsOk
    rw [if_neg (h2 ▸ hRC), if_pos h2]
  · intro h
    unfold Transaction.IsOk at h
    split_ifs at h with h1 h2 h3 h4 <;> simp_all

theorem isOk_terminal_first_witness :
    ((⟨str "i", str "*", 0, 10, [], [], str "Committing"⟩ :
      Transaction Unit).IsExpired 99 = true) ∧
    ((⟨str "i", str "*", 0, 10, [], [], str "Committing"⟩ : Transaction Unit).IsOk 99 =
        .ok (some .alreadyCommitted)) ∧
    ((⟨str "i", str "*", 0, 10, [], [], str "RollingBack"⟩ : Transaction Unit).IsOk 99 =
        .ok (some .alreadyRolledBack)) ∧
    ((⟨str "i", str "*", 0, 10, [], [], str "InProgress"⟩ :
      Transaction Unit).State = str "InProgress") := by
  refine ⟨by decide, ?_, ?_, ?_⟩
  · exact (isOk_terminal_first Unit
      ⟨str "i", str "*", 0, 10, [], [], str "Committing"⟩ 99).1 (by decide) rfl
  · exact (isOk_terminal_first Unit
      ⟨str "i", str "*", 0, 10, [], [], str "RollingBack"⟩ 99).2.1 (by decide) rfl
  · exact (isOk_terminal_first Unit
      ⟨str "i", str "*", 0, 10, [], [], str "InProgress"⟩ 99).2.2 (by decide)

/-! Claim theorems: AddStep. -/

/-- C3: AddStep is atomic on error: when IsOk reports an error, AddStep
returns that same error and leaves the transaction (step list included)
unchanged; when marshalling a non-nil entity fails, AddStep surfaces that
error and likewise leaves the transaction unchanged. -/
theorem addStep_error_atomic (ε : Type) (marshal : ε → Except GoError GoStr)
    (t : Transaction ε) (nowCheck nowMeta : Int)
    (Typ ContentType Path InitialETag : GoStr) (Entity : Option ε) :
    (∀ e : GoError, t.IsOk nowCheck = .ok (some e) →
      t.AddStep marshal nowCheck nowMeta Typ ContentType Path InitialETag Entity =
        .ok (t, some e)) ∧
    (∀ (x : ε) (se : GoError), t.IsOk nowCheck = .ok none → Entity = some x →
      marshal x = .error se →
      t.AddStep marshal nowCheck nowMeta Typ ContentType Path InitialETag Entity =
        .ok (t, some se)) := by
  constructor
  · intro e he
    unfold Transaction.AddStep
    rw [he]
  · intro x se hok hx hm
    subst hx
    unfold Transaction.AddStep
    rw [hok]
    show (match marshal x with
      | Except.error err => (GoResult.ok (t, some err) :
          GoResult (Transaction ε × Option GoError))
      | Except.ok data => _) = .ok (t, some se)
    rw [hm]

def mFail : Unit → Except GoError GoStr := fun _ => .error (.marshalErr (str "boom"))

def mOk : Unit → Except GoError GoStr := fun _ => .ok (str "x")

def txCommitting : Transaction Unit := ⟨str "i", str "*", 0, 10, [], [], str "Committing"⟩

def txFresh : Transaction Unit := NewTransaction Unit (str "i") 0 10

theorem addStep_error_atomic_witness :
    (txCommitting.IsOk 0 = .ok (some .alreadyCommitted)) ∧
    (txCommitting.AddStep mOk 0 5 (str "c") (str "ct") (str "p") (str "e") none =
      .ok (txCommitting, some .alreadyCommitted)) ∧
    (txFresh.IsOk 0 = .ok none) ∧
    (mFail () = .error (.marshalErr (str "boom"))) ∧
    (txFresh.AddStep mFail 0 5 (str "c") (str "ct") (str "p") (str "e") (some ()) =
      .ok (txFresh, some (.marshalErr (str "boom")))) := by
  refine ⟨by decide, ?_, by decide, rfl, ?_⟩
  · exact (addStep_error_atomic Unit mOk txCommitting 0 5
      (str "c") (str "ct") (str "p") (str "e") none).1 .alreadyCommitted (by decide)
  · exact (addStep_error_atomic Unit mFail txFresh 0 5
      (str "c") (str "ct") (str "p") (str "e") (some ())).2 () (.marshalErr (str "boom"))
      (by decide) rfl rfl

/-- C9: a successful AddStep modifies only the Steps field, appending
exactly one step; Id, Etag, StartMicroseconds, TimeoutMicroseconds, State
and the Cache are all unchanged. -/
theorem addStep_frame (ε : Type) (marshal : ε → Except GoError GoStr)
    (t t' : Transaction ε) (nowCheck nowMeta : Int)
    (Typ ContentType Path InitialETag : GoStr) (Entity : Option ε)
    (h : t.AddStep marshal nowCheck nowMeta Typ ContentType Path InitialETag Entity =
      .ok (t', none)) :
    t'.Id = t.Id ∧ t'.Etag = t.Etag ∧
    t'.StartMicroseconds = t.StartMicroseconds ∧
    t'.TimeoutMicroseconds = t.TimeoutMicroseconds ∧
    t'.State = t.State ∧ t'.Cache = t.Cache ∧
    ∃ s : TransactionStep ε, t'.Steps = t.Steps ++ [s] := by
  rw [addStep_ok_none marshal t nowCheck nowMeta Typ ContentType Path InitialETag
    Entity t' h]
  exact ⟨rfl, rfl, rfl, rfl, rfl, rfl, ⟨_, rfl⟩⟩

def stepX : TransactionStep Unit :=
  { Typ := str "c", ContentType := str "ct", Path := str "p", InitialETag := str "e",
    InitialVersionId := [],
    UserMetadata := [(TX_ID, str "i"), (LAST_MODIFIED, str "5")],
    Data := str "x", Entity := some (), Executed := false,
    FinalETag := none, FinalVersionId := none }

def txAfter : Transaction Unit :=
  { txFresh with Steps := [stepX] }

theorem addStep_frame_witness :
    (txFresh.AddStep mOk 0 5 (str "c") (str "ct") (str "p") (str "e") (some ()) =
      .ok (txAfter, none)) ∧
    (txAfter.Id = txFresh.Id ∧ txAfter.Etag = txFresh.Etag ∧
      txAfter.StartMicroseconds = txFresh.StartMicroseconds ∧
      txAfter.TimeoutMicroseconds = txFresh.TimeoutMicroseconds ∧
      txAfter.State = txFresh.State ∧ txAfter.Cache = txFresh.Cache ∧
      ∃ s : TransactionStep Unit, txAfter.Steps = txFresh.Steps ++ [s]) := by
  refine ⟨by decide, ?_⟩
  exact addStep_frame Unit mOk txFresh txAfter 0 5
    (str "c") (str "ct") (str "p") (str "e") (some ()) (by decide)

/-- C7: successful sequential AddStep calls are append-only and
order-preserving: running a list of requests from any starting transaction,
with every call succeeding, leaves the original steps untouched as a prefix
and appends the step of the i-th call at offset i, so from a fresh
transaction the step of the i-th call sits at index i-1. -/
theorem addStep_append_only (ε : Type) (marshal : ε → Except GoError GoStr)
    (reqs : List (StepReq ε)) (t t' : Transaction ε)
    (h : runAddSteps marshal reqs t = .ok (t', none)) :
    t'.Steps = t.Steps ++ reqs.map (builtStep marshal t.Id) := by
  induction reqs generalizing t with
  | nil =>
    unfold runAddSteps at h
    have h' : (GoResult.ok (t, none) :
        GoResult (Transaction ε × Option GoError)) = .ok (t', none) := h
    simp only [GoResult.ok.injEq, Prod.mk.injEq, and_true] at h'
    rw [← h']
    simp
  | cons r rs ih =>
    unfold runAddSteps at h
    cases ha : t.AddStep marshal r.nowCheck r.nowMeta r.Typ r.ContentType r.Path
        r.InitialETag r.Entity with
    | fatal m =>
      rw [ha] at h
      exact absurd h (by simp)
    | ok pr =>
      obtain ⟨t1, oe⟩ := pr
      rw [ha] at h
      cases oe with
      | some e =>
        have h' : (GoResult.ok (t1, some e) :
            GoResult (Transaction ε × Option GoError)) = .ok (t', none) := h
        simp at h'
      | none =>
        have h' : runAddSteps marshal rs t1 = .ok (t', none) := h
        have h1 := addStep_ok_none marshal t r.nowCheck r.nowMeta r.Typ r.ContentType
          r.Path r.InitialETag r.Entity t1 ha
        have h2 := ih t1 h'
        rw [h1] at h2
        simp only [List.map_cons] at h2 ⊢
        rw [h2]
        simp [List.append_assoc]

def reqA : StepReq Unit := ⟨1, 5, str "c", str "ct", str "p", str "e", none⟩

def reqB : StepReq Unit := ⟨2, 6, str "u", str "ct2", str "p2", str "e2", some ()⟩

def txAfter2 : Transaction Unit :=
  { txFresh with
    Steps := [builtStep mOk (str "i") reqA, builtStep mOk (str "i") reqB] }

theorem addStep_append_only_witness :
    (runAddSteps mOk [reqA, reqB] txFresh = .ok (txAfter2, none)) ∧
    (txAfter2.Steps = txFresh.Steps ++ [reqA, reqB].map (builtStep mOk txFresh.Id)) :=
  ⟨by decide, addStep_append_only Unit mOk [reqA, reqB] txFresh txAfter2 (by decide)⟩

/-! Claim theorems: the addressing scheme. -/

/-- C8: PathFromIndex fails with TableMismatch exactly when the tuple
names a different database or a different table, and otherwise returns the
record path of the tuple id, equal to Table.Path of that id. -/
theorem pathFromIndex_spec (db nm : GoStr) (idxs : List Index)
    (tuple : DatabaseTableIdTuple) :
    ((Table.mk db nm idxs).PathFromIndex tuple = .error (.tableMismatch tuple) ↔
      (tuple.Database ≠ db ∨ tuple.Table ≠ nm)) ∧
    (tuple.Database = db → tuple.Table = nm →
      (Table.mk db nm idxs).PathFromIndex tuple =
        .ok ((Table.mk db nm idxs).Path tuple.Id)) := by
  constructor
  · unfold Table.PathFromIndex
    by_cases hcond : tuple.Database ≠ (Table.mk db nm idxs).Database ∨
        tuple.Table ≠ (Table.mk db nm idxs).Name
    · rw [if_pos hcond]
      simpa [Table.Database, Table.Name] using hcond
    · rw [if_neg hcond]
      constructor
      · intro hcontra
        exact absurd hcontra (by simp)
      · intro hor
        exact absurd (by simpa [Table.Database, Table.Name] using hor) hcond
  · intro h1 h2
    unfold Table.PathFromIndex
    rw [if_neg (by simp [Table.Database, Table.Name, h1, h2])]
    rfl

theorem pathFromIndex_spec_witness :
    ((Table.mk (str "shop") (str "orders") []).PathFromIndex
      ⟨str "other", str "orders", str "123"⟩ =
        .error (.tableMismatch ⟨str "other", str "orders", str "123"⟩)) ∧
    ((Table.mk (str "shop") (str "orders") []).PathFromIndex
      ⟨str "shop", str "orders", str "123"⟩ =
        .ok ((Table.mk (str "shop") (str "orders") []).Path (str "123"))) := by
  constructor
  · exact (pathFromIndex_spec (str "shop") (str "orders") []
      ⟨str "other", str "orders", str "123"⟩).1.mpr (Or.inl (by decide))
  · exact (pathFromIndex_spec (str "shop") (str "orders") []
      ⟨str "shop", str "orders", str "123"⟩).2 rfl rfl

theorem toLowerStr_padTo2 (s : GoStr) : toLowerStr (padTo2 s) = padTo2 (toLowerStr s) := by
  match s with
  | [] => decide
  | [c] =>
    show toLowerStr ['_', c] = padTo2 [c.toLower]
    have hu : Char.toLower '_' = '_' := by decide
    simp [toLowerStr, padTo2, hu]
  | a :: b :: rest => rfl

theorem padTo2_two_le (s : GoStr) : 2 ≤ (padTo2 s).length := by
  match s with
  | [] => decide
  | [c] => simp [padTo2]
  | a :: b :: rest => simp [padTo2]

/-- C6: PathNoId lower-cases the field value, left-pads it with
underscores to length at least two, and returns the shard-prefixed path;
it is case-insensitive on the examples of the claim, identifies "a" with
"_a", and every result sits under a 2-character shard directory. -/
theorem pathNoId_spec (i : Index) (fieldValue : GoStr) :
    (i.PathNoId fieldValue =
      i.PathStem ++ str "/" ++ (padTo2 (toLowerStr fieldValue)).take 2 ++ str "/" ++
        padTo2 (toLowerStr fieldValue)) ∧
    (i.PathNoId (str "AB") = i.PathNoId (str "ab")) ∧
    (i.PathNoId (str "a") = i.PathNoId (str "_a")) ∧
    ((padTo2 (toLowerStr fieldValue)).take 2).length = 2 := by
  refine ⟨?_, ?_, ?_, ?_⟩
  · unfold Index.PathNoId
    dsimp only
    rw [toLowerStr_padTo2]
  · unfold Index.PathNoId
    dsimp only
    rw [show toLowerStr (padTo2 (str "AB")) = toLowerStr (padTo2 (str "ab")) from by decide]
  · unfold Index.PathNoId
    dsimp only
    rw [show toLowerStr (padTo2 (str "a")) = toLowerStr (padTo2 (str "_a")) from by decide]
  · rw [List.length_take]
    have := padTo2_two_le (toLowerStr fieldValue)
    omega

/-- C4 counterexample: a filename with three separators (four parts) does
NOT fail: SplitN with limit 3 leaves the extra separator inside the third
part, so the parse succeeds with Id "c___d". -/
theorem parse_splitN_cex :
    DatabaseTableIdTupleFromPath (str "a___b___c___d") =
      .ok ⟨str "a", str "b", str "c___d"⟩ ∧
    DatabaseTableIdTupleFromPath (str "a___b___c___d") ≠
      .error (.malformedPath (str "a___b___c___d")) := by decide

/-- C4 (amended): DatabaseTableIdTupleFromPath strips everything up to and
including the last slash and fails with MalformedPath exactly when the
remaining filename cannot be written with at least two separator
occurrences; on success the filename is the three derived parts joined by
the separator, extra separators remaining inside the Id. -/
theorem parse_malformed_iff (path : GoStr) :
    (DatabaseTableIdTupleFromPath path = .error (.malformedPath (claimFilename path)) ↔
      ¬ ∃ a b c : GoStr,
        claimFilename path = a ++ str "___" ++ b ++ str "___" ++ c) ∧
    (∀ tup : DatabaseTableIdTuple, DatabaseTableIdTupleFromPath path = .ok tup →
      claimFilename path =
        tup.Database ++ str "___" ++ tup.Table ++ str "___" ++ tup.Id) := by
  by_cases hex : ∃ a b c : GoStr,
      claimFilename path = a ++ str "___" ++ b ++ str "___" ++ c
  · obtain ⟨a, b, c, hd⟩ := hex
    obtain ⟨x, y, z, hxyz⟩ := goSplitN3_of_decomp (str "___") a b c
    rw [← hd] at hxyz
    have hval : DatabaseTableIdTupleFromPath path = .ok ⟨x, y, z⟩ := by
      rw [parse_eq, hxyz]
    have hdec := goSplitN3_decomp hxyz
    constructor
    · rw [hval]
      constructor
      · intro hcontra
        exact absurd hcontra (by simp)
      · intro hcontra
        exact absurd ⟨a, b, c, hd⟩ hcontra
    · intro tup htup
      rw [hval] at htup
      have htup' : (⟨x, y, z⟩ : DatabaseTableIdTuple) = tup := by
        injection htup
      rw [← htup']
      exact hdec
  · have hval : DatabaseTableIdTupleFromPath path =
        .error (.malformedPath (claimFilename path)) := by
      rw [parse_eq]
      cases h3 : goSplitN (str "___") (claimFilename path) 3 with
      | nil => rfl
      | cons a tl =>
        cases tl with
        | nil => rfl
        | cons b tl2 =>
          cases tl2 with
          | nil => rfl
          | cons c tl3 =>
            cases tl3 with
            | nil => exact absurd ⟨a, b, c, goSplitN3_decomp h3⟩ hex
            | cons d l => rfl
    constructor
    · exact iff_of_true hval hex
    · intro tup htup
      rw [hval] at htup
      exact absurd htup (by simp)

theorem parse_malformed_iff_witness :
    (DatabaseTableIdTupleFromPath (str "x/a___b___c") =
      .ok ⟨str "a", str "b", str "c"⟩) ∧
    (claimFilename (str "x/a___b___c") =
      str "a" ++ str "___" ++ str "b" ++ str "___" ++ str "c") :=
  ⟨by decide, (parse_malformed_iff (str "x/a___b___c")).2
    ⟨str "a", str "b", str "c"⟩ (by decide)⟩

/-- C1 counterexample: the record path of id "123" in table shop/orders is
"shop/orders/data/123.json"; its filename "123.json" holds no separator,
so the parse fails with MalformedPath instead of recovering the tuple. -/
theorem tablePath_roundtrip_cex :
    DatabaseTableIdTupleFromPath
      ((Table.mk (str "shop") (str "orders") []).Path (str "123")) =
        .error (.malformedPath (str "123.json")) ∧
    DatabaseTableIdTupleFromPath
      ((Table.mk (str "shop") (str "orders") []).Path (str "123")) ≠
        .ok ⟨str "shop", str "orders", str "123"⟩ := by decide

/-- C1 (amended): for a slash-free id, DatabaseTableIdTupleFromPath on
Table.Path(id) never yields the tuple (database, table, id), and whenever
the id holds no "___" separator it fails with MalformedPath on the
filename id ++ ".json".  The round trip of the original claim holds for
Index.Path, not Table.Path. -/
theorem tablePath_roundtrip_amended (db nm : GoStr) (idxs : List Index) (id : GoStr)
    (hslash : '/' ∉ id) :
    (DatabaseTableIdTupleFromPath ((Table.mk db nm idxs).Path id) ≠
      .ok ⟨db, nm, id⟩) ∧
    (findSep (str "___") id = none →
      DatabaseTableIdTupleFromPath ((Table.mk db nm idxs).Path id) =
        .error (.malformedPath (id ++ str ".json"))) := by
  have hshape : (Table.mk db nm idxs).Path id =
      (db ++ str "/" ++ nm ++ str "/data") ++ '/' :: (id ++ str ".json") := by
    show (((db ++ str "/" ++ nm ++ str "/data") ++ str "/") ++ id) ++ str ".json" = _
    rw [show (str "/" : GoStr) = ['/'] from rfl]
    simp [List.append_assoc]
  have hclean : '/' ∉ id ++ str ".json" := by
    intro hmem
    rcases List.mem_append.mp hmem with h | h
    · exact hslash h
    · exact absurd h (by decide)
  have hparse := parse_append_clean (db ++ str "/" ++ nm ++ str "/data")
    (id ++ str ".json") hclean
  constructor
  · rw [hshape, hparse]
    cases h3 : goSplitN (str "___") (id ++ str ".json") 3 with
    | nil => simp
    | cons a tl =>
      cases tl with
      | nil => simp
      | cons b tl2 =>
        cases tl2 with
        | nil => simp
        | cons c tl3 =>
          cases tl3 with
          | cons d l => simp
          | nil =>
            intro hcontra
            have hcontra' : (Except.ok (⟨a, b, c⟩ : DatabaseTableIdTuple) :
                Except GoError DatabaseTableIdTuple) = .ok ⟨db, nm, id⟩ := hcontra
            have heq : (⟨a, b, c⟩ : DatabaseTableIdTuple) = ⟨db, nm, id⟩ := by
              injection hcontra'
            have ha : a = db := congrArg DatabaseTableIdTuple.Database heq
            have hb : b = nm := congrArg DatabaseTableIdTuple.Table heq
            have hc : c = id := congrArg DatabaseTableIdTuple.Id heq
            have hdec := goSplitN3_decomp h3
            rw [ha, hb, hc] at hdec
            have hlen := congrArg List.length hdec
            have h5 : (str ".json" : GoStr).length = 5 := rfl
            simp only [List.length_append, sep_len, h5] at hlen
            omega
  · intro hnosep
    rw [hshape, hparse]
    have hnone : findSep (str "___") (id ++ str ".json") = none := by
      rw [findSep_none_iff]
      intro hex
      have hid := @sepThroughAppend id (str ".json") (by decide)
        (by
          obtain ⟨a, b, hab⟩ := hex
          exact ⟨a, b, hab⟩)
      rw [findSep_none_iff] at hnosep
      exact hnosep hid
    rw [goSplitN_three_none hnone]

theorem tablePath_roundtrip_amended_witness :
    ('/' ∉ str "123") ∧ (findSep (str "___") (str "123") = none) ∧
    (DatabaseTableIdTupleFromPath
      ((Table.mk (str "shop") (str "orders") []).Path (str "123")) ≠
        .ok ⟨str "shop", str "orders", str "123"⟩) ∧
    (DatabaseTableIdTupleFromPath
      ((Table.mk (str "shop") (str "orders") []).Path (str "123")) =
        .error (.malformedPath (str "123" ++ str ".json"))) := by
  refine ⟨by decide, by decide, ?_, ?_⟩
  · exact (tablePath_roundtrip_amended (str "shop") (str "orders") [] (str "123")
      (by decide)).1
  · exact (tablePath_roundtrip_amended (str "shop") (str "orders") [] (str "123")
      (by decide)).2 (by decide)

/-- C5 counterexample: with database "a_" (ending in an underscore) the
index-entry filename is "a____t___i" and SplitN recovers ("a", "_t", "i"),
not ("a_", "t", "i"), so the round trip fails for such names. -/
theorem indexPath_roundtrip_cex :
    DatabaseTableIdTupleFromPath
      ((Index.mk (Table.mk (str "a_") (str "t") []) (str "f")).Path
        (str "v") (str "i")) = .ok ⟨str "a", str "_t", str "i"⟩ ∧
    DatabaseTableIdTupleFromPath
      ((Index.mk (Table.mk (str "a_") (str "t") []) (str "f")).Path
        (str "v") (str "i")) ≠ .ok ⟨str "a_", str "t", str "i"⟩ := by decide

/-- C5 (amended): for every Index on a table whose database and table
names hold no "___", do not end in "_", and hold no "/", and for every
slash-free id and arbitrary fieldValue, DatabaseTableIdTupleFromPath on
Index.Path(fieldValue, id) succeeds and recovers (database, table, id),
regardless of fieldValue. -/
theorem indexPath_roundtrip_amended (db nm fld : GoStr) (idxs : List Index)
    (fv idv : GoStr)
    (hd1 : findSep (str "___") db = none) (hd2 : db.getLast? ≠ some '_')
    (hd3 : '/' ∉ db)
    (hn1 : findSep (str "___") nm = none) (hn2 : nm.getLast? ≠ some '_')
    (hn3 : '/' ∉ nm) (hi3 : '/' ∉ idv) :
    DatabaseTableIdTupleFromPath
      ((Index.mk (Table.mk db nm idxs) fld).Path fv idv) =
        .ok ⟨db, nm, idv⟩ := by
  have hd1' : ¬ ∃ a b : GoStr, db = a ++ str "___" ++ b := findSep_none_iff.mp hd1
  have hn1' : ¬ ∃ a b : GoStr, nm = a ++ str "___" ++ b := findSep_none_iff.mp hn1
  have hshape : (Index.mk (Table.mk db nm idxs) fld).Path fv idv =
      (Index.mk (Table.mk db nm idxs) fld).PathNoId fv ++
        '/' :: (db ++ str "___" ++ nm ++ str "___" ++ idv) := by
    show (Index.mk (Table.mk db nm idxs) fld).PathNoId fv ++ str "/" ++
        (db ++ str "___" ++ nm ++ str "___" ++ idv) = _
    rw [show (str "/" : GoStr) = ['/'] from rfl]
    simp [List.append_assoc]
  have hclean : '/' ∉ db ++ str "___" ++ nm ++ str "___" ++ idv := by
    intro hmem
    rcases List.mem_append.mp hmem with h1 | h1
    · rcases List.mem_append.mp h1 with h2 | h2
      · rcases List.mem_append.mp h2 with h3 | h3
        · rcases List.mem_append.mp h3 with h4 | h4
          · exact hd3 h4
          · exact absurd h4 (by decide)
        · exact hn3 h3
      · exact absurd h2 (by decide)
    · exact hi3 h1
  rw [hshape, parse_append_clean _ _ hclean,
    goSplitN3_exact db nm idv hd1 hd2 hn1 hn2]

theorem indexPath_roundtrip_amended_witness :
    (findSep (str "___") (str "shop") = none) ∧
    ((str "shop" : GoStr).getLast? ≠ some '_') ∧ ('/' ∉ str "shop") ∧
    (DatabaseTableIdTupleFromPath
      ((Index.mk (Table.mk (str "shop") (str "orders") []) (str "status")).Path
        (str "SHIPPED") (str "123")) = .ok ⟨str "shop", str "orders", str "123"⟩) := by
  refine ⟨by decide, by decide, by decide, ?_⟩
  exact indexPath_roundtrip_amended (str "shop") (str "orders") (str "status") []
    (str "SHIPPED") (str "123") (by decide) (by decide) (by decide) (by decide)
    (by decide) (by decide) (by decide)
